import Mathlib

/-!
Shallow embedding of the concurrency core of `penny_v2`:

* `penny_v2/core/event_bus.py` — `EventBus` with `subscribe`,
  `subscribe_async`, `unsubscribe` and `publish`.
* `penny_v2/main_app.py` — the service supervisor `PennyV2QtApp` with
  `start_services`, `stop_services` and `shutdown`.

Event types are identified by `Nat` keys; handlers are identified by a
numeric id together with their observable behaviour at dispatch time
(whether the call raises).  Dispatch is modelled as the *trace* of
actions the Python coroutine performs in order: the single cooperative
scheduler means `publish` and `shutdown` interleave their awaited steps
in exactly the textual order of the source, which the trace records.
-/

namespace PennyV2

/-- A subscriber callback: identified by `id`; `raises` says whether the
call raises an exception when invoked on the published event. -/
structure Handler where
  id : Nat
  raises : Bool
deriving DecidableEq, Repr

/-- Invoking a handler: mirrors calling `callback(event)`, which either
returns (`.ok`) or raises (`.error` carrying the handler id). -/
def callHandler (h : Handler) : Except Nat Unit :=
  if h.raises then .error h.id else .ok ()

/-- The two registries of `EventBus.__init__`: `_subscribers` and
`_async_subscribers`, each a `defaultdict(list)` keyed by event type. -/
structure EventBus where
  subscribers : List (Nat × List Handler)
  asyncSubscribers : List (Nat × List Handler)
deriving Repr

/-- Reading `d[k]` from a `defaultdict(list)`: the stored list, or `[]`. -/
def getSubs (m : List (Nat × List Handler)) (k : Nat) : List Handler :=
  (m.lookup k).getD []

/-- Storing `d[k] = l` into the association-list model of the dict. -/
def setSubs (m : List (Nat × List Handler)) (k : Nat) (l : List Handler) :
    List (Nat × List Handler) :=
  match m with
  | [] => [(k, l)]
  | (k2, l2) :: rest => if k = k2 then (k, l) :: rest else (k2, l2) :: setSubs rest k l

/-- `EventBus()`: both registries empty. -/
def EventBus.empty : EventBus := ⟨[], []⟩

/-- `EventBus.subscribe`: appends the callback to `_subscribers[event_type]`. -/
def subscribe (bus : EventBus) (eventType : Nat) (cb : Handler) : EventBus :=
  { bus with subscribers :=
      setSubs bus.subscribers eventType (getSubs bus.subscribers eventType ++ [cb]) }

/-- `EventBus.subscribe_async`: appends to `_async_subscribers[event_type]`. -/
def subscribeAsync (bus : EventBus) (eventType : Nat) (cb : Handler) : EventBus :=
  { bus with asyncSubscribers :=
      setSubs bus.asyncSubscribers eventType (getSubs bus.asyncSubscribers eventType ++ [cb]) }

/-- `EventBus.unsubscribe`: `if callback in lst: lst.remove(callback)` on
both registries — `List.erase` removes the first occurrence when present
and is a no-op otherwise, exactly the guarded `remove`. -/
def unsubscribe (bus : EventBus) (eventType : Nat) (cb : Handler) : EventBus :=
  { subscribers :=
      setSubs bus.subscribers eventType ((getSubs bus.subscribers eventType).erase cb)
    asyncSubscribers :=
      setSubs bus.asyncSubscribers eventType ((getSubs bus.asyncSubscribers eventType).erase cb) }

/-- One observable step of `EventBus.publish`. -/
inductive BusAction where
  /-- `await loop.run_in_executor(None, callback, event)` begins. -/
  | syncStart (h : Nat)
  /-- the executor call returned normally and the await completed. -/
  | syncOk (h : Nat)
  /-- the callback raised; the `except` clause caught it and `logger.error` ran. -/
  | syncErrLogged (h : Nat)
  /-- `asyncio.gather` starts the coroutine `coro_callback(event)`. -/
  | asyncStart (h : Nat)
  /-- the coroutine finished; `ok` is false when it raised (the exception is
  captured in the gather results because of `return_exceptions=True`). -/
  | asyncDone (h : Nat) (ok : Bool)
  /-- `publish` returns to its caller. -/
  | ret
deriving DecidableEq, Repr

/-- The per-callback body of the synchronous loop of `publish`: the awaited
executor call inside `try`, with the `except` clause logging a raise. -/
def runSync (h : Handler) : List BusAction :=
  .syncStart h.id ::
    (match callHandler h with
     | .ok _ => [.syncOk h.id]
     | .error e => [.syncErrLogged e])

/-- `asyncio.gather(*(cb(event) for cb in asubs), return_exceptions=True)`:
all coroutines are started, and the gather resolves once every one has
finished — exceptions become entries of the result list, not raises. -/
def gatherTrace (hs : List Handler) : List BusAction :=
  hs.map (fun h => .asyncStart h.id) ++ hs.map (fun h => .asyncDone h.id (!h.raises))

/-- The result list the gather produces (`return_exceptions=True` turns each
raise into a value).  The source never reads it (`# Check results for
exceptions if needed`). -/
def gatherResults (hs : List Handler) : List (Except Nat Unit) :=
  hs.map callHandler

/-- The ordered action trace of `await EventBus.publish(event)` for an event
of type `eventType`: the sequential sync loop, then the gather over the
async subscribers (skipped when that list is empty), then the return. -/
def publishTrace (bus : EventBus) (eventType : Nat) : List BusAction :=
  (getSubs bus.subscribers eventType).flatMap runSync ++
    (if (getSubs bus.asyncSubscribers eventType).isEmpty then []
     else gatherTrace (getSubs bus.asyncSubscribers eventType)) ++
    [.ret]

/-- `publish` as seen by the caller: every raise inside the sync loop is
caught by its `try`/`except`, and the gather cannot raise because of
`return_exceptions=True`, so the coroutine always returns normally. -/
def publish (bus : EventBus) (eventType : Nat) : Except Nat (List BusAction) :=
  .ok (publishTrace bus eventType)

/-- The handler ids for which `publish` emitted a `logger.error` record:
only the sync `except` clause logs. -/
def loggedErrors (t : List BusAction) : List Nat :=
  t.filterMap (fun a => match a with | .syncErrLogged h => some h | _ => none)

/-- The dispatch-start order of the synchronous handlers in a trace. -/
def syncStarts (t : List BusAction) : List Nat :=
  t.filterMap (fun a => match a with | .syncStart h => some h | _ => none)

/-! ## Service supervisor (`penny_v2/main_app.py`, `PennyV2QtApp`) -/

/-- A service as the supervisor sees it: `hasStart`/`hasStop` model the
`hasattr(service, 'start'/'stop')` probes; `startRaises`/`stopRaises` model
whether the hook raises; `stopIsAsync` models
`asyncio.iscoroutinefunction(service.stop)`. -/
structure Service where
  id : Nat
  hasStart : Bool
  startRaises : Bool
  hasStop : Bool
  stopIsAsync : Bool
  stopRaises : Bool
deriving DecidableEq, Repr

/-- A leftover asyncio task found by `asyncio.all_tasks` during `shutdown`;
`honorsCancel` says whether it completes within the 2-second
`asyncio.wait` after `task.cancel()`. -/
structure StrayTask where
  id : Nat
  honorsCancel : Bool
deriving DecidableEq, Repr

/-- The event-type key of `AppShutdownEvent`. -/
def appShutdownType : Nat := 0

/-- One observable step of the supervisor coroutines. -/
inductive SupAction where
  /-- an awaited step of an `EventBus.publish` call made by the supervisor. -/
  | busAct (a : BusAction)
  /-- `await asyncio.sleep(·)`, duration in milliseconds. -/
  | sleepMs (ms : Nat)
  /-- `start` of a service is entered (directly awaited or via a task). -/
  | startAttempt (s : Nat)
  /-- the service's `start` completed normally. -/
  | startOk (s : Nat)
  /-- the service's `start` raised; the supervisor caught and logged it. -/
  | startErrLogged (s : Nat)
  /-- `logger.info("Initiating stop for service: ...")` followed by the call
  (sync `stop()` invoked inline, async `stop()` wrapped in a task). -/
  | stopInitiated (s : Nat)
  /-- the service's `stop` completed normally. -/
  | stopOk (s : Nat)
  /-- the service's `stop` raised; caught and logged. -/
  | stopErrLogged (s : Nat)
  /-- the `asyncio.gather` over the async stop tasks has been awaited. -/
  | asyncStopsAwaited
  /-- `task.cancel()` on a leftover task. -/
  | cancelRequested (t : Nat)
  /-- `await asyncio.wait(tasks_to_cancel, timeout=·)` returned (timeout in
  milliseconds). -/
  | cancelAwait (ms : Nat)
  /-- `logger.warning` for a task still pending after the bounded wait; the
  task is abandoned. -/
  | abandonWarn (t : Nat)
  /-- a shutdown request arrived while `_shutting_down` was already set and
  was ignored (logged and returned immediately). -/
  | shutdownIgnored
  /-- `self.loop.stop()` requested. -/
  | loopStopRequested
deriving DecidableEq, Repr

/-! ### `start_services` -/

/-- The sequential startup phase: each listed service is started with
`await service.start()` inside its own `try`/`except` that logs errors
(`TwitchEventSubService` then `TwitchChatService` in the source). -/
def startPhaseSeq (seqs : List Service) : List SupAction :=
  seqs.flatMap (fun s =>
    if s.hasStart then
      .startAttempt s.id ::
        (if s.startRaises then [.startErrLogged s.id] else [.startOk s.id])
    else [])

/-- The parallel startup phase: a task is created per service with a
`start`, then `asyncio.gather(..., return_exceptions=True)` is awaited and
each exceptional result is logged. -/
def startPhasePar (pars : List Service) : List SupAction :=
  (pars.filter (·.hasStart)).map (fun s => .startAttempt s.id) ++
    (pars.filter (·.hasStart)).map
      (fun s => if s.startRaises then .startErrLogged s.id else .startOk s.id)

/-- The action trace of `await PennyV2QtApp.start_services()`. -/
def startServicesTrace (seqs pars : List Service) : List SupAction :=
  startPhaseSeq seqs ++ startPhasePar pars

/-! ### `stop_services` -/

/-- The inline part of the stop loop body for one service: the initiation
log always runs; a synchronous `stop()` is then called inside
`try`/`except` (so it completes or is logged), while an asynchronous one
only has its task created here. -/
def stopInline (s : Service) : List SupAction :=
  .stopInitiated s.id ::
    (if s.stopIsAsync then []
     else if s.stopRaises then [.stopErrLogged s.id] else [.stopOk s.id])

/-- `services_to_stop = [s for s in reversed(self._services) if hasattr(s, 'stop')]`. -/
def servicesToStop (services : List Service) : List Service :=
  services.reverse.filter (·.hasStop)

/-- Completions of the async stop tasks, resolved by the
`asyncio.gather(..., return_exceptions=True)` whose exceptional results
are logged. -/
def asyncStopSegment (services : List Service) : List SupAction :=
  ((servicesToStop services).filter (·.stopIsAsync)).map
    (fun s => if s.stopRaises then .stopErrLogged s.id else .stopOk s.id)

/-- The action trace of `await PennyV2QtApp.stop_services()`: publish
`AppShutdownEvent` (awaited, hence fully drained), `await
asyncio.sleep(0.1)`, the reverse-order stop loop, then the awaited gather
over the async stop tasks. -/
def stopServicesTrace (bus : EventBus) (services : List Service) : List SupAction :=
  (publishTrace bus appShutdownType).map .busAct ++
    [.sleepMs 100] ++
    (servicesToStop services).flatMap stopInline ++
    asyncStopSegment services ++
    [.asyncStopsAwaited]

/-- The ids of the services whose stop was initiated, in trace order. -/
def stopInits (t : List SupAction) : List Nat :=
  t.filterMap (fun a => match a with | .stopInitiated s => some s | _ => none)

/-- The ids of the stray tasks the supervisor warned about and abandoned. -/
def abandonWarns (t : List SupAction) : List Nat :=
  t.filterMap (fun a => match a with | .abandonWarn k => some k | _ => none)

/-! ### `shutdown` -/

/-- The leftover-task cleanup at the end of `shutdown`: when
`tasks_to_cancel` is nonempty, every task is cancelled, the cancellations
are awaited with `timeout=2.0`, and each task still pending afterwards is
logged as a warning and abandoned. -/
def cancelSegment (strays : List StrayTask) : List SupAction :=
  if strays.isEmpty then []
  else
    strays.map (fun t => .cancelRequested t.id) ++
      [.cancelAwait 2000] ++
      (strays.filter (fun t => !t.honorsCancel)).map (fun t => .abandonWarn t.id)

/-- The action trace of the body of `await PennyV2QtApp.shutdown(...)` once
the `_shutting_down` gate has been passed: `await self.stop_services()`,
the leftover-task cleanup, then `self.loop.stop()` when the loop runs. -/
def shutdownBody (bus : EventBus) (services : List Service)
    (strays : List StrayTask) (loopRunning : Bool) : List SupAction :=
  stopServicesTrace bus services ++
    cancelSegment strays ++
    (if loopRunning then [.loopStopRequested] else [])

/-- The supervisor state the shutdown triggers act on: the
`_shutting_down` flag and the accumulated action trace. -/
structure AppState where
  shuttingDown : Bool
  trace : List SupAction
deriving Repr

/-- `PennyV2QtApp.__init__` leaves `_shutting_down = False`. -/
def AppState.initial : AppState := ⟨false, []⟩

/-- `await PennyV2QtApp.shutdown(...)`: the guard `if self._shutting_down:
return` and the flag assignment run back-to-back with no suspension point,
so on the single cooperative scheduler the check-and-set is atomic. -/
def shutdownCall (bus : EventBus) (services : List Service)
    (strays : List StrayTask) (loopRunning : Bool) (st : AppState) : AppState :=
  if st.shuttingDown then { st with trace := st.trace ++ [.shutdownIgnored] }
  else ⟨true, st.trace ++ shutdownBody bus services strays loopRunning⟩

/-- The three ways a shutdown is triggered in `main_app.py`; each converges
on `shutdown()`. -/
inductive Trigger where
  /-- `_signal_triggered_shutdown` (guards with `if not self._shutting_down`). -/
  | osSignal
  /-- `_handle_about_to_quit` (same guard, then schedules `shutdown`). -/
  | uiClose
  /-- a direct programmatic `shutdown(...)` call. -/
  | programmatic
deriving DecidableEq, Repr

/-- Processing one shutdown trigger. -/
def handleTrigger (bus : EventBus) (services : List Service)
    (strays : List StrayTask) (loopRunning : Bool) (st : AppState) :
    Trigger → AppState
  | .osSignal =>
      if st.shuttingDown then st else shutdownCall bus services strays loopRunning st
  | .uiClose =>
      if st.shuttingDown then st else shutdownCall bus services strays loopRunning st
  | .programmatic => shutdownCall bus services strays loopRunning st

/-- Processing a sequence of shutdown triggers from the initial state. -/
def runTriggers (bus : EventBus) (services : List Service)
    (strays : List StrayTask) (loopRunning : Bool) (trs : List Trigger) : AppState :=
  trs.foldl (handleTrigger bus services strays loopRunning) AppState.initial

/-! ## Trace-ordering infrastructure -/

/-- `actsBefore t p q`: every action of `t` satisfying `p` occurs at a
strictly smaller index than every action satisfying `q`. -/
def actsBefore {α : Type} (t : List α) (p q : α → Bool) : Prop :=
  ∀ (i j : Nat) (a b : α),
    t[i]? = some a → t[j]? = some b → p a = true → q b = true → i < j

theorem mem_of_idx {α : Type} {t : List α} {i : Nat} {a : α}
    (h : t[i]? = some a) : a ∈ t := by
  obtain ⟨hn, rfl⟩ := List.getElem?_eq_some.mp h
  exact t.getElem_mem hn

/-- If nothing in `u` satisfies `q` and nothing in `v` satisfies `p`, then
in `u ++ v` every `p`-action precedes every `q`-action. -/
theorem actsBefore_append {α : Type} {u v : List α} {p q : α → Bool}
    (hu : ∀ a ∈ u, q a = false) (hv : ∀ b ∈ v, p b = false) :
    actsBefore (u ++ v) p q := by
  intro i j a b hi hj hp hq
  by_cases hiu : i < u.length
  · by_cases hju : j < u.length
    · exfalso
      rw [List.getElem?_append_left hju] at hj
      have := hu b (mem_of_idx hj)
      rw [this] at hq
      exact absurd hq (by simp)
    · omega
  · exfalso
    push_neg at hiu
    rw [List.getElem?_append_right hiu] at hi
    have := hv a (mem_of_idx hi)
    rw [this] at hp
    exact absurd hp (by simp)

/-- A trace with no `p`-action trivially orders `p` before `q`. -/
theorem actsBefore_of_not_left {α : Type} {t : List α} {p q : α → Bool}
    (h : ∀ a ∈ t, p a = false) : actsBefore t p q := by
  intro i j a b hi _ hp _
  have := h a (mem_of_idx hi)
  rw [this] at hp
  exact absurd hp (by simp)

/-! ## Registry lemmas -/

theorem getSubs_setSubs_self (m : List (Nat × List Handler)) (k : Nat)
    (l : List Handler) : getSubs (setSubs m k l) k = l := by
  induction m with
  | nil => simp [setSubs, getSubs, List.lookup]
  | cons p rest ih =>
    obtain ⟨k2, l2⟩ := p
    by_cases hk : k = k2
    · simp [setSubs, hk, getSubs, List.lookup]
    · have hbeq : (k == k2) = false := by simpa using hk
      simpa [setSubs, hk, getSubs, List.lookup, hbeq] using ih

theorem getSubs_subscribe (bus : EventBus) (et : Nat) (cb : Handler) :
    getSubs (subscribe bus et cb).subscribers et =
      getSubs bus.subscribers et ++ [cb] := by
  simp [subscribe, getSubs_setSubs_self]

theorem asyncSubscribers_subscribe (bus : EventBus) (et : Nat) (cb : Handler) :
    (subscribe bus et cb).asyncSubscribers = bus.asyncSubscribers := rfl

/-- Registering a list of sync handlers one after the other. -/
def subscribeAll (bus : EventBus) (et : Nat) (hs : List Handler) : EventBus :=
  hs.foldl (fun b h => subscribe b et h) bus

theorem getSubs_subscribeAll (bus : EventBus) (et : Nat) (hs : List Handler) :
    getSubs (subscribeAll bus et hs).subscribers et =
      getSubs bus.subscribers et ++ hs := by
  induction hs generalizing bus with
  | nil => simp [subscribeAll]
  | cons h rest ih =>
    have hstep : subscribeAll bus et (h :: rest) = subscribeAll (subscribe bus et h) et rest := by
      simp [subscribeAll]
    rw [hstep, ih, getSubs_subscribe]
    simp

/-! ## Dispatch-order lemmas for `publish` -/

theorem syncStarts_append (u v : List BusAction) :
    syncStarts (u ++ v) = syncStarts u ++ syncStarts v := by
  simp [syncStarts]

theorem syncStarts_runSync (h : Handler) : syncStarts (runSync h) = [h.id] := by
  cases hr : h.raises <;> simp [runSync, callHandler, hr, syncStarts]

theorem syncStarts_flatMap_runSync (s : List Handler) :
    syncStarts (s.flatMap runSync) = s.map (·.id) := by
  induction s with
  | nil => simp [syncStarts]
  | cons h rest ih =>
    rw [List.flatMap_cons, syncStarts_append, syncStarts_runSync, ih]
    rfl

theorem syncStarts_gatherTrace (hs : List Handler) :
    syncStarts (gatherTrace hs) = [] := by
  simp [gatherTrace, syncStarts]

theorem syncStarts_publishTrace (bus : EventBus) (et : Nat) :
    syncStarts (publishTrace bus et) = (getSubs bus.subscribers et).map (·.id) := by
  rw [publishTrace, syncStarts_append, syncStarts_append, syncStarts_flatMap_runSync]
  have h2 : syncStarts
      (if (getSubs bus.asyncSubscribers et).isEmpty then []
       else gatherTrace (getSubs bus.asyncSubscribers et)) = [] := by
    split
    · rfl
    · exact syncStarts_gatherTrace _
  rw [h2]
  simp [syncStarts]

/-- C4: within one `publish` call the synchronous handlers registered for
the event's type are dispatched in registration order — subscribing the
handlers `hs` in list order (after any earlier registrations) makes the
dispatch-start order of the trace exactly the earlier registrations
followed by `hs`, in order. -/
theorem publish_dispatches_sync_in_registration_order
    (bus : EventBus) (et : Nat) (hs : List Handler) :
    syncStarts (publishTrace (subscribeAll bus et hs) et) =
      (getSubs bus.subscribers et ++ hs).map (·.id) := by
  rw [syncStarts_publishTrace, getSubs_subscribeAll]

/-! ## Completion and return classifiers for `publish` traces -/

/-- An action recording that some handler invocation reached completion
(normal return, caught sync exception, or a finished async coroutine). -/
def isCompletionAct : BusAction → Bool
  | .syncOk _ => true
  | .syncErrLogged _ => true
  | .asyncDone _ _ => true
  | _ => false

/-- The action of `publish` returning to its caller. -/
def isRetAct : BusAction → Bool
  | .ret => true
  | _ => false

/-- The part of the `publish` trace before the `return`. -/
def publishBody (bus : EventBus) (et : Nat) : List BusAction :=
  (getSubs bus.subscribers et).flatMap runSync ++
    (if (getSubs bus.asyncSubscribers et).isEmpty then []
     else gatherTrace (getSubs bus.asyncSubscribers et))

theorem publishTrace_eq_body_ret (bus : EventBus) (et : Nat) :
    publishTrace bus et = publishBody bus et ++ [.ret] := by
  simp [publishTrace, publishBody]

theorem no_ret_in_runSync (h : Handler) :
    ∀ a ∈ runSync h, isRetAct a = false := by
  intro a ha
  cases hr : h.raises <;>
    simp [runSync, callHandler, hr] at ha <;>
    rcases ha with rfl | rfl <;> rfl

theorem no_ret_in_gatherTrace (hs : List Handler) :
    ∀ a ∈ gatherTrace hs, isRetAct a = false := by
  intro a ha
  rcases List.mem_append.mp ha with hm | hm <;>
    · obtain ⟨h, _, rfl⟩ := List.mem_map.mp hm
      rfl

theorem no_ret_in_publishBody (bus : EventBus) (et : Nat) :
    ∀ a ∈ publishBody bus et, isRetAct a = false := by
  intro a ha
  rcases List.mem_append.mp ha with hm | hm
  · obtain ⟨h, _, hmem⟩ := List.mem_flatMap.mp hm
    exact no_ret_in_runSync h a hmem
  · by_cases he : (getSubs bus.asyncSubscribers et).isEmpty
    · rw [if_pos he] at hm
      exact absurd hm (List.not_mem_nil a)
    · rw [if_neg he] at hm
      exact no_ret_in_gatherTrace _ a hm

theorem completion_of_sync_mem (bus : EventBus) (et : Nat) (h : Handler)
    (hm : h ∈ getSubs bus.subscribers et) :
    BusAction.syncOk h.id ∈ publishTrace bus et ∨
      BusAction.syncErrLogged h.id ∈ publishTrace bus et := by
  have hbody : (if h.raises then BusAction.syncErrLogged h.id else .syncOk h.id) ∈
      (getSubs bus.subscribers et).flatMap runSync := by
    refine List.mem_flatMap.mpr ⟨h, hm, ?_⟩
    cases hr : h.raises <;> simp [runSync, callHandler, hr]
  rw [publishTrace_eq_body_ret]
  cases hr : h.raises
  · left
    rw [hr] at hbody
    simp only [if_neg Bool.false_ne_true] at hbody
    exact List.mem_append_left _ (List.mem_append_left _ hbody)
  · right
    rw [hr] at hbody
    simp only [if_pos rfl] at hbody
    exact List.mem_append_left _ (List.mem_append_left _ hbody)

theorem completion_of_async_mem (bus : EventBus) (et : Nat) (h : Handler)
    (hm : h ∈ getSubs bus.asyncSubscribers et) :
    BusAction.asyncDone h.id (!h.raises) ∈ publishTrace bus et := by
  have hne : (getSubs bus.asyncSubscribers et).isEmpty = false := by
    simpa using List.ne_nil_of_mem hm
  rw [publishTrace_eq_body_ret]
  refine List.mem_append_left _ (List.mem_append_right _ ?_)
  rw [if_neg (by simp [hne])]
  exact List.mem_append_right _ (List.mem_map.mpr ⟨h, hm, rfl⟩)

/-- C1: `await publish(e)` is a fan-out/fan-in barrier — every registered
synchronous handler and every registered asynchronous handler has a
completion action in the trace, every completion action precedes the
return action, and the return action is the final step of the trace. -/
theorem publish_is_fanout_fanin_barrier (bus : EventBus) (et : Nat) :
    (∀ h ∈ getSubs bus.subscribers et,
       BusAction.syncOk h.id ∈ publishTrace bus et ∨
         BusAction.syncErrLogged h.id ∈ publishTrace bus et) ∧
    (∀ h ∈ getSubs bus.asyncSubscribers et,
       BusAction.asyncDone h.id (!h.raises) ∈ publishTrace bus et) ∧
    actsBefore (publishTrace bus et) isCompletionAct isRetAct ∧
    (publishTrace bus et).getLast? = some .ret := by
  refine ⟨fun h hm => completion_of_sync_mem bus et h hm,
    fun h hm => completion_of_async_mem bus et h hm, ?_, ?_⟩
  · rw [publishTrace_eq_body_ret]
    refine actsBefore_append (no_ret_in_publishBody bus et) ?_
    intro b hb
    rcases List.mem_singleton.mp hb with rfl
    rfl
  · rw [publishTrace_eq_body_ret]
    exact List.getLast?_concat _

/-! ## Invocation membership and error isolation -/

theorem syncStart_mem_of_mem (bus : EventBus) (et : Nat) (h : Handler)
    (hm : h ∈ getSubs bus.subscribers et) :
    BusAction.syncStart h.id ∈ publishTrace bus et := by
  rw [publishTrace_eq_body_ret]
  refine List.mem_append_left _ (List.mem_append_left _ ?_)
  refine List.mem_flatMap.mpr ⟨h, hm, ?_⟩
  cases hr : h.raises <;> simp [runSync, callHandler, hr]

theorem asyncStart_mem_of_mem (bus : EventBus) (et : Nat) (h : Handler)
    (hm : h ∈ getSubs bus.asyncSubscribers et) :
    BusAction.asyncStart h.id ∈ publishTrace bus et := by
  have hne : (getSubs bus.asyncSubscribers et).isEmpty = false := by
    simpa using List.ne_nil_of_mem hm
  rw [publishTrace_eq_body_ret]
  refine List.mem_append_left _ (List.mem_append_right _ ?_)
  rw [if_neg (by simp [hne])]
  exact List.mem_append_left _ (List.mem_map.mpr ⟨h, hm, rfl⟩)

/-- C2: when exactly one of the handlers subscribed for the event's type
raises, every other handler — synchronous or asynchronous — is still
invoked, and `publish` still completes its whole trace and returns
normally to the publisher. -/
theorem publish_isolates_single_failing_handler (bus : EventBus) (et : Nat)
    (b : Handler)
    (_hb : b ∈ getSubs bus.subscribers et ++ getSubs bus.asyncSubscribers et)
    (_hbr : b.raises = true)
    (_hothers : ∀ h ∈ getSubs bus.subscribers et ++ getSubs bus.asyncSubscribers et,
       h ≠ b → h.raises = false) :
    (∀ h ∈ getSubs bus.subscribers et, h ≠ b →
       BusAction.syncStart h.id ∈ publishTrace bus et) ∧
    (∀ h ∈ getSubs bus.asyncSubscribers et, h ≠ b →
       BusAction.asyncStart h.id ∈ publishTrace bus et) ∧
    publish bus et = .ok (publishTrace bus et) := by
  exact ⟨fun h hm _ => syncStart_mem_of_mem bus et h hm,
    fun h hm _ => asyncStart_mem_of_mem bus et h hm, rfl⟩

/-! ## C3: async handler exceptions are captured but never logged -/

theorem loggedErrors_append (u v : List BusAction) :
    loggedErrors (u ++ v) = loggedErrors u ++ loggedErrors v := by
  simp [loggedErrors]

theorem loggedErrors_runSync (h : Handler) :
    loggedErrors (runSync h) = if h.raises then [h.id] else [] := by
  cases hr : h.raises <;> simp [runSync, callHandler, hr, loggedErrors]

theorem loggedErrors_flatMap_runSync (s : List Handler) :
    loggedErrors (s.flatMap runSync) = (s.filter (·.raises)).map (·.id) := by
  induction s with
  | nil => simp [loggedErrors]
  | cons h rest ih =>
    rw [List.flatMap_cons, loggedErrors_append, loggedErrors_runSync, ih]
    cases hr : h.raises <;> simp [List.filter_cons, hr]

theorem loggedErrors_gatherTrace (hs : List Handler) :
    loggedErrors (gatherTrace hs) = [] := by
  simp [gatherTrace, loggedErrors]

/-- Only the synchronous `except` clause produces a `logger.error` record:
the logged ids of a `publish` trace are exactly those of the raising
*synchronous* handlers, whatever the asynchronous handlers do. -/
theorem loggedErrors_publishTrace (bus : EventBus) (et : Nat) :
    loggedErrors (publishTrace bus et) =
      ((getSubs bus.subscribers et).filter (·.raises)).map (·.id) := by
  rw [publishTrace, loggedErrors_append, loggedErrors_append,
    loggedErrors_flatMap_runSync]
  have h2 : loggedErrors
      (if (getSubs bus.asyncSubscribers et).isEmpty then []
       else gatherTrace (getSubs bus.asyncSubscribers et)) = [] := by
    split
    · rfl
    · exact loggedErrors_gatherTrace _
  rw [h2]
  simp [loggedErrors]

/-- The fixture refuting the "and logged" part of the claim: a bus whose
only subscriber for event type `0` is an async handler that raises. -/
def soleAsyncRaiser : Handler := ⟨7, true⟩

/-- A bus with `soleAsyncRaiser` as the only (async) subscriber of type 0. -/
def asyncRaiserBus : EventBus := subscribeAsync EventBus.empty 0 soleAsyncRaiser

/-- Counterexample to C3 as stated: on `asyncRaiserBus`, publishing event
type 0 invokes an async handler that raises, yet `publish` emits no error
log record at all — the gather's `return_exceptions=True` results are
never examined, so the exception is captured but *not* logged. -/
theorem async_error_not_logged_cex :
    soleAsyncRaiser ∈ getSubs asyncRaiserBus.asyncSubscribers 0 ∧
    callHandler soleAsyncRaiser = .error 7 ∧
    loggedErrors (publishTrace asyncRaiserBus 0) = [] :=
  ⟨by decide, rfl, by decide⟩

/-- C3 amended: an exception raised by an individual asynchronous handler
is captured per-handler in the gather results and never propagated to the
publisher (which still receives a normal return) or to sibling handlers
(which all still reach completion) — but it is **not** logged: the error
log of the trace consists exactly of the raising synchronous handlers. -/
theorem async_error_captured_not_propagated_not_logged (bus : EventBus)
    (et : Nat) (b : Handler)
    (hb : b ∈ getSubs bus.asyncSubscribers et) (hbr : b.raises = true) :
    publish bus et = .ok (publishTrace bus et) ∧
    Except.error b.id ∈ gatherResults (getSubs bus.asyncSubscribers et) ∧
    (∀ h ∈ getSubs bus.asyncSubscribers et,
       BusAction.asyncDone h.id (!h.raises) ∈ publishTrace bus et) ∧
    loggedErrors (publishTrace bus et) =
      ((getSubs bus.subscribers et).filter (·.raises)).map (·.id) := by
  refine ⟨rfl, ?_, fun h hm => completion_of_async_mem bus et h hm,
    loggedErrors_publishTrace bus et⟩
  refine List.mem_map.mpr ⟨b, hb, ?_⟩
  simp [callHandler, hbr]

/-! ## C9: sequential sync dispatch, then the async phase -/

/-- Any action belonging to the synchronous dispatch loop. -/
def isSyncAct : BusAction → Bool
  | .syncStart _ => true
  | .syncOk _ => true
  | .syncErrLogged _ => true
  | _ => false

/-- A sync dispatch beginning. -/
def isSyncStartAct : BusAction → Bool
  | .syncStart _ => true
  | _ => false

/-- A sync invocation reaching completion (return or caught raise). -/
def isSyncCompletionAct : BusAction → Bool
  | .syncOk _ => true
  | .syncErrLogged _ => true
  | _ => false

/-- An async coroutine being started by the gather. -/
def isAsyncStartAct : BusAction → Bool
  | .asyncStart _ => true
  | _ => false

/-- `syncBalanced t k = true` iff, scanning `t` with `k` sync invocations
currently in flight, a sync dispatch only ever begins when none is in
flight and a sync completion only ever occurs when exactly one is: the
synchronous handlers are dispatched strictly sequentially, each awaited
to completion before the next begins. -/
def syncBalanced : List BusAction → Nat → Bool
  | [], _ => true
  | a :: rest, k =>
    if isSyncStartAct a then decide (k = 0) && syncBalanced rest 1
    else if isSyncCompletionAct a then decide (k = 1) && syncBalanced rest 0
    else syncBalanced rest k

theorem syncBalanced_of_no_sync (t : List BusAction)
    (h : ∀ a ∈ t, isSyncAct a = false) (k : Nat) : syncBalanced t k = true := by
  induction t with
  | nil => rfl
  | cons a rest ih =>
    have ha := h a (List.mem_cons_self a rest)
    have h1 : isSyncStartAct a = false := by
      cases a <;> first | rfl | exact absurd ha (by simp [isSyncAct])
    have h2 : isSyncCompletionAct a = false := by
      cases a <;> first | rfl | exact absurd ha (by simp [isSyncAct])
    rw [syncBalanced, h1, h2]
    simp only [Bool.false_eq_true, if_false]
    exact ih (fun x hx => h x (List.mem_cons_of_mem a hx))

theorem syncBalanced_runSync_append (h : Handler) (rest : List BusAction) :
    syncBalanced (runSync h ++ rest) 0 = syncBalanced rest 0 := by
  cases hr : h.raises <;>
    simp [runSync, callHandler, hr, syncBalanced, isSyncStartAct, isSyncCompletionAct]

theorem syncBalanced_flatMap (s : List Handler) (tail : List BusAction)
    (htail : ∀ a ∈ tail, isSyncAct a = false) :
    syncBalanced (s.flatMap runSync ++ tail) 0 = true := by
  induction s with
  | nil => simpa using syncBalanced_of_no_sync tail htail 0
  | cons h rest ih =>
    rw [List.flatMap_cons, List.append_assoc, syncBalanced_runSync_append]
    exact ih

theorem no_sync_in_gatherTrace (hs : List Handler) :
    ∀ a ∈ gatherTrace hs, isSyncAct a = false := by
  intro a ha
  rcases List.mem_append.mp ha with hm | hm <;>
    · obtain ⟨h, _, rfl⟩ := List.mem_map.mp hm
      rfl

theorem no_sync_in_publish_tail (bus : EventBus) (et : Nat) :
    ∀ a ∈ ((if (getSubs bus.asyncSubscribers et).isEmpty then []
            else gatherTrace (getSubs bus.asyncSubscribers et)) ++
           [BusAction.ret]), isSyncAct a = false := by
  intro a ha
  rcases List.mem_append.mp ha with hm | hm
  · by_cases he : (getSubs bus.asyncSubscribers et).isEmpty
    · rw [if_pos he] at hm
      exact absurd hm (List.not_mem_nil a)
    · rw [if_neg he] at hm
      exact no_sync_in_gatherTrace _ a hm
  · rcases List.mem_singleton.mp hm with rfl
    rfl

theorem no_asyncStart_in_runSync (h : Handler) :
    ∀ a ∈ runSync h, isAsyncStartAct a = false := by
  intro a ha
  cases hr : h.raises <;>
    simp [runSync, callHandler, hr] at ha <;>
    rcases ha with rfl | rfl <;> rfl

/-- C9: within one `publish` call, the synchronous dispatch loop is
strictly sequential (each invocation awaited to completion before the
next starts), every synchronous handler has completed, and every
synchronous-loop action — in particular every completion — occurs before
any asynchronous handler is started by the gather. -/
theorem sync_phase_sequential_and_before_async (bus : EventBus) (et : Nat) :
    syncBalanced (publishTrace bus et) 0 = true ∧
    (∀ h ∈ getSubs bus.subscribers et,
       BusAction.syncOk h.id ∈ publishTrace bus et ∨
         BusAction.syncErrLogged h.id ∈ publishTrace bus et) ∧
    actsBefore (publishTrace bus et) isSyncAct isAsyncStartAct := by
  refine ⟨?_, fun h hm => completion_of_sync_mem bus et h hm, ?_⟩
  · rw [publishTrace, List.append_assoc]
    exact syncBalanced_flatMap _ _ (no_sync_in_publish_tail bus et)
  · rw [publishTrace, List.append_assoc]
    refine actsBefore_append ?_ ?_
    · intro a ha
      obtain ⟨h, _, hmem⟩ := List.mem_flatMap.mp ha
      exact no_asyncStart_in_runSync h a hmem
    · intro b hb
      have hb2 := no_sync_in_publish_tail bus et b hb
      cases b <;> first | rfl | exact absurd hb2 (by simp [isSyncAct])

/-! ## C10: duplicate subscription and `unsubscribe` -/

/-- An action that invokes (sync- or async-dispatches) the handler id `k`. -/
def isInvokeOf (k : Nat) : BusAction → Bool
  | .syncStart j => j == k
  | .asyncStart j => j == k
  | _ => false

/-- How many times `publish`'s trace invokes handler id `k`. -/
def invocations (k : Nat) (t : List BusAction) : Nat :=
  t.countP (isInvokeOf k)

theorem invocations_runSync (k : Nat) (h : Handler) :
    (runSync h).countP (isInvokeOf k) = if h.id = k then 1 else 0 := by
  cases hr : h.raises <;>
    by_cases hk : h.id = k <;>
    simp [runSync, callHandler, hr, List.countP_cons, isInvokeOf, hk]

theorem invocations_flatMap_runSync (k : Nat) (s : List Handler) :
    (s.flatMap runSync).countP (isInvokeOf k) =
      s.countP (fun h => h.id == k) := by
  induction s with
  | nil => rfl
  | cons h rest ih =>
    rw [List.flatMap_cons, List.countP_append, invocations_runSync, ih,
      List.countP_cons]
    by_cases hk : h.id = k <;> simp [hk]
    omega

theorem invocations_gatherTrace (k : Nat) (hs : List Handler) :
    (gatherTrace hs).countP (isInvokeOf k) =
      hs.countP (fun h => h.id == k) := by
  rw [gatherTrace, List.countP_append]
  induction hs with
  | nil => rfl
  | cons h rest ih =>
    by_cases hk : h.id = k <;>
      simp [List.countP_cons, isInvokeOf, hk] at ih ⊢ <;> omega

theorem invocations_publishTrace (k : Nat) (bus : EventBus) (et : Nat) :
    invocations k (publishTrace bus et) =
      (getSubs bus.subscribers et).countP (fun h => h.id == k) +
        (getSubs bus.asyncSubscribers et).countP (fun h => h.id == k) := by
  rw [invocations, publishTrace, List.countP_append, List.countP_append,
    invocations_flatMap_runSync]
  have h2 : (if (getSubs bus.asyncSubscribers et).isEmpty then []
       else gatherTrace (getSubs bus.asyncSubscribers et)).countP (isInvokeOf k) =
      (getSubs bus.asyncSubscribers et).countP (fun h => h.id == k) := by
    by_cases he : (getSubs bus.asyncSubscribers et).isEmpty
    · rw [if_pos he]
      rw [List.isEmpty_iff.mp he]
      rfl
    · rw [if_neg he, invocations_gatherTrace]
  rw [h2]
  rfl

/-- Under the hypothesis that no *other* handler of the list shares `h`'s
id, counting by id is counting occurrences of `h` itself. -/
theorem countP_id_eq_count (l : List Handler) (h : Handler)
    (huniq : ∀ g ∈ l, g.id = h.id → g = h) :
    l.countP (fun g => g.id == h.id) = l.count h := by
  induction l with
  | nil => rfl
  | cons g rest ih =>
    have hrest := ih (fun x hx hid => huniq x (List.mem_cons_of_mem g hx) hid)
    rw [List.countP_cons, List.count_cons, hrest]
    by_cases hid : g.id = h.id
    · have : g = h := huniq g (List.mem_cons_self g rest) hid
      simp [this]
    · have hne : ¬ g = h := fun he => hid (by rw [he])
      simp [hid, hne]

theorem getSubs_unsubscribe_sync (bus : EventBus) (et : Nat) (cb : Handler) :
    getSubs (unsubscribe bus et cb).subscribers et =
      (getSubs bus.subscribers et).erase cb := by
  simp [unsubscribe, getSubs_setSubs_self]

theorem getSubs_unsubscribe_async (bus : EventBus) (et : Nat) (cb : Handler) :
    getSubs (unsubscribe bus et cb).asyncSubscribers et =
      (getSubs bus.asyncSubscribers et).erase cb := by
  simp [unsubscribe, getSubs_setSubs_self]

theorem count_erase_of_count_eq_zero (l : List Handler) (h : Handler)
    (hc : l.count h = 0) : (l.erase h).count h = 0 := by
  have : h ∉ l := by
    intro hm
    have := List.count_pos_iff.mpr hm
    omega
  rw [List.erase_of_not_mem this, hc]

/-- C10: if the handler `h` occurs exactly twice in one of the two
subscriber lists of its event type (and nowhere in the other), a single
`unsubscribe` removes exactly one occurrence — the first, since the
update is `List.erase` — so a subsequent `publish` still invokes `h`
exactly once; a second `unsubscribe` removes the remaining occurrence and
`publish` then no longer invokes it. -/
theorem unsubscribe_removes_single_occurrence (bus : EventBus) (et : Nat)
    (h : Handler)
    (hu1 : ∀ g ∈ getSubs bus.subscribers et, g.id = h.id → g = h)
    (hu2 : ∀ g ∈ getSubs bus.asyncSubscribers et, g.id = h.id → g = h)
    (hcnt : ((getSubs bus.subscribers et).count h = 2 ∧
               (getSubs bus.asyncSubscribers et).count h = 0) ∨
            ((getSubs bus.subscribers et).count h = 0 ∧
               (getSubs bus.asyncSubscribers et).count h = 2)) :
    getSubs (unsubscribe bus et h).subscribers et =
      (getSubs bus.subscribers et).erase h ∧
    invocations h.id (publishTrace (unsubscribe bus et h) et) = 1 ∧
    invocations h.id
      (publishTrace (unsubscribe (unsubscribe bus et h) et h) et) = 0 := by
  have hs1 := getSubs_unsubscribe_sync bus et h
  have ha1 := getSubs_unsubscribe_async bus et h
  have hs2 := getSubs_unsubscribe_sync (unsubscribe bus et h) et h
  have ha2 := getSubs_unsubscribe_async (unsubscribe bus et h) et h
  have hu1e : ∀ g ∈ (getSubs bus.subscribers et).erase h, g.id = h.id → g = h :=
    fun g hg => hu1 g (List.mem_of_mem_erase hg)
  have hu2e : ∀ g ∈ (getSubs bus.asyncSubscribers et).erase h, g.id = h.id → g = h :=
    fun g hg => hu2 g (List.mem_of_mem_erase hg)
  have hu1ee : ∀ g ∈ ((getSubs bus.subscribers et).erase h).erase h, g.id = h.id → g = h :=
    fun g hg => hu1e g (List.mem_of_mem_erase hg)
  have hu2ee : ∀ g ∈ ((getSubs bus.asyncSubscribers et).erase h).erase h, g.id = h.id → g = h :=
    fun g hg => hu2e g (List.mem_of_mem_erase hg)
  refine ⟨hs1, ?_, ?_⟩
  · rw [invocations_publishTrace, hs1, ha1,
      countP_id_eq_count _ h hu1e, countP_id_eq_count _ h hu2e]
    rcases hcnt with ⟨c1, c2⟩ | ⟨c1, c2⟩
    · have e1 : ((getSubs bus.subscribers et).erase h).count h = 1 := by
        rw [List.count_erase_self, c1]
      have e2 : ((getSubs bus.asyncSubscribers et).erase h).count h = 0 :=
        count_erase_of_count_eq_zero _ _ c2
      omega
    · have e1 : ((getSubs bus.subscribers et).erase h).count h = 0 :=
        count_erase_of_count_eq_zero _ _ c1
      have e2 : ((getSubs bus.asyncSubscribers et).erase h).count h = 1 := by
        rw [List.count_erase_self, c2]
      omega
  · rw [invocations_publishTrace, hs2, ha2, hs1, ha1,
      countP_id_eq_count _ h hu1ee, countP_id_eq_count _ h hu2ee]
    rcases hcnt with ⟨c1, c2⟩ | ⟨c1, c2⟩
    · have e0 : ((getSubs bus.subscribers et).erase h).count h = 1 := by
        rw [List.count_erase_self, c1]
      have e1 : (((getSubs bus.subscribers et).erase h).erase h).count h = 0 := by
        rw [List.count_erase_self, e0]
      have e2 : (((getSubs bus.asyncSubscribers et).erase h).erase h).count h = 0 :=
        count_erase_of_count_eq_zero _ _ (count_erase_of_count_eq_zero _ _ c2)
      omega
    · have e1 : (((getSubs bus.subscribers et).erase h).erase h).count h = 0 :=
        count_erase_of_count_eq_zero _ _ (count_erase_of_count_eq_zero _ _ c1)
      have e0 : ((getSubs bus.asyncSubscribers et).erase h).count h = 1 := by
        rw [List.count_erase_self, c2]
      have e2 : (((getSubs bus.asyncSubscribers et).erase h).erase h).count h = 0 := by
        rw [List.count_erase_self, e0]
      omega

/-! ## C5: reverse-order stop initiation -/

theorem stopInits_append (u v : List SupAction) :
    stopInits (u ++ v) = stopInits u ++ stopInits v := by
  simp [stopInits]

theorem stopInits_busMap (t : List BusAction) :
    stopInits (t.map .busAct) = [] := by
  simp [stopInits]

theorem stopInits_stopInline (s : Service) :
    stopInits (stopInline s) = [s.id] := by
  cases s.stopIsAsync <;> cases hr : s.stopRaises <;>
    simp [stopInline, stopInits, hr]

theorem stopInits_flatMap_stopInline (l : List Service) :
    stopInits (l.flatMap stopInline) = l.map (·.id) := by
  induction l with
  | nil => rfl
  | cons s rest ih =>
    rw [List.flatMap_cons, stopInits_append, stopInits_stopInline, ih]
    rfl

theorem stopInits_asyncStopSegment (services : List Service) :
    stopInits (asyncStopSegment services) = [] := by
  rw [asyncStopSegment]
  induction (servicesToStop services).filter (·.stopIsAsync) with
  | nil => rfl
  | cons s rest ih =>
    rw [List.map_cons]
    by_cases hr : s.stopRaises <;> simp [stopInits, hr] at ih ⊢ <;> exact ih

theorem stopInits_stopServicesTrace (bus : EventBus) (services : List Service) :
    stopInits (stopServicesTrace bus services) =
      (servicesToStop services).map (·.id) := by
  rw [stopServicesTrace, stopInits_append, stopInits_append, stopInits_append,
    stopInits_append, stopInits_busMap, stopInits_flatMap_stopInline,
    stopInits_asyncStopSegment]
  simp [stopInits]

theorem stopInitiated_mem_of_mem_stopInits (t : List SupAction) (k : Nat)
    (hk : k ∈ stopInits t) : SupAction.stopInitiated k ∈ t := by
  obtain ⟨a, ha, he⟩ := List.mem_filterMap.mp hk
  cases a <;> simp at he
  rw [← he]
  exact ha

/-- C5: `stop_services` initiates `stop()` for exactly the registered
services that define one, and the initiation order is the exact reverse
of the registration order; in particular every registered service with a
stop hook has its stop initiated. -/
theorem stop_initiated_in_reverse_registration_order (bus : EventBus)
    (services : List Service) :
    stopInits (stopServicesTrace bus services) =
      ((services.filter (·.hasStop)).map (·.id)).reverse ∧
    ∀ s ∈ services, s.hasStop = true →
      SupAction.stopInitiated s.id ∈ stopServicesTrace bus services := by
  have hmain : stopInits (stopServicesTrace bus services) =
      ((services.filter (·.hasStop)).map (·.id)).reverse := by
    rw [stopInits_stopServicesTrace, servicesToStop, List.filter_reverse,
      List.map_reverse]
  refine ⟨hmain, fun s hs hstop => ?_⟩
  refine stopInitiated_mem_of_mem_stopInits _ _ ?_
  rw [hmain, List.mem_reverse]
  exact List.mem_map.mpr ⟨s, List.mem_filter.mpr ⟨hs, by simp [hstop]⟩, rfl⟩

/-! ## C8: per-service isolation of startup failures -/

theorem startAttempt_mem_seq (seqs : List Service) (s : Service)
    (hs : s ∈ seqs) (hstart : s.hasStart = true) :
    SupAction.startAttempt s.id ∈ startPhaseSeq seqs := by
  refine List.mem_flatMap.mpr ⟨s, hs, ?_⟩
  simp [hstart]

theorem startOk_mem_seq (seqs : List Service) (s : Service)
    (hs : s ∈ seqs) (hstart : s.hasStart = true) (hok : s.startRaises = false) :
    SupAction.startOk s.id ∈ startPhaseSeq seqs := by
  refine List.mem_flatMap.mpr ⟨s, hs, ?_⟩
  simp [hstart, hok]

theorem startErr_mem_seq (seqs : List Service) (s : Service)
    (hs : s ∈ seqs) (hstart : s.hasStart = true) (hr : s.startRaises = true) :
    SupAction.startErrLogged s.id ∈ startPhaseSeq seqs := by
  refine List.mem_flatMap.mpr ⟨s, hs, ?_⟩
  simp [hstart, hr]

theorem startAttempt_mem_par (pars : List Service) (s : Service)
    (hs : s ∈ pars) (hstart : s.hasStart = true) :
    SupAction.startAttempt s.id ∈ startPhasePar pars := by
  refine List.mem_append_left _ ?_
  exact List.mem_map.mpr ⟨s, List.mem_filter.mpr ⟨hs, by simp [hstart]⟩, rfl⟩

theorem startResult_mem_par (pars : List Service) (s : Service)
    (hs : s ∈ pars) (hstart : s.hasStart = true) :
    (if s.startRaises then SupAction.startErrLogged s.id
     else SupAction.startOk s.id) ∈ startPhasePar pars := by
  refine List.mem_append_right _ ?_
  exact List.mem_map.mpr ⟨s, List.mem_filter.mpr ⟨hs, by simp [hstart]⟩, rfl⟩

/-- C8: if one service's `start()` raises, the supervisor logs the failure
and every other service with a `start` hook is still attempted — and,
when its own start does not raise, completes successfully.  The failure
never aborts the rest of the startup. -/
theorem start_failure_does_not_abort_others (seqs pars : List Service)
    (b : Service) (hb : b ∈ seqs ++ pars) (hbs : b.hasStart = true)
    (hbr : b.startRaises = true) :
    SupAction.startErrLogged b.id ∈ startServicesTrace seqs pars ∧
    ∀ s ∈ seqs ++ pars, s ≠ b → s.hasStart = true →
      SupAction.startAttempt s.id ∈ startServicesTrace seqs pars ∧
      (s.startRaises = false →
        SupAction.startOk s.id ∈ startServicesTrace seqs pars) := by
  constructor
  · rcases List.mem_append.mp hb with hm | hm
    · exact List.mem_append_left _ (startErr_mem_seq seqs b hm hbs hbr)
    · refine List.mem_append_right _ ?_
      have := startResult_mem_par pars b hm hbs
      rwa [if_pos hbr] at this
  · intro s hs _ hstart
    constructor
    · rcases List.mem_append.mp hs with hm | hm
      · exact List.mem_append_left _ (startAttempt_mem_seq seqs s hm hstart)
      · exact List.mem_append_right _ (startAttempt_mem_par pars s hm hstart)
    · intro hok
      rcases List.mem_append.mp hs with hm | hm
      · exact List.mem_append_left _ (startOk_mem_seq seqs s hm hstart hok)
      · refine List.mem_append_right _ ?_
        have := startResult_mem_par pars s hm hstart
        rwa [if_neg (by simp [hok])] at this

/-! ## C7: the shutdown sequence runs its steps strictly in order

The shutdown coroutine is straight-line awaited code, so its trace is a
concatenation of segments; we index each action with the `phase` in which
the source performs it and show the trace is sorted by phase. -/

/-- The textual phase of the shutdown coroutine an action belongs to. -/
def phase : SupAction → Nat
  | .busAct _ => 0
  | .sleepMs _ => 1
  | .startAttempt _ => 0
  | .startOk _ => 0
  | .startErrLogged _ => 0
  | .stopInitiated _ => 2
  | .stopOk _ => 2
  | .stopErrLogged _ => 2
  | .asyncStopsAwaited => 3
  | .cancelRequested _ => 4
  | .cancelAwait _ => 5
  | .abandonWarn _ => 6
  | .shutdownIgnored => 0
  | .loopStopRequested => 7

/-- Phase order between two actions. -/
def phaseLe (a b : SupAction) : Prop := phase a ≤ phase b

theorem pairwise_phase_const (c : Nat) (u : List SupAction)
    (h : ∀ a ∈ u, phase a = c) : List.Pairwise phaseLe u := by
  induction u with
  | nil => exact List.Pairwise.nil
  | cons a rest ih =>
    refine List.Pairwise.cons (fun b hb => ?_)
      (ih fun x hx => h x (List.mem_cons_of_mem a hx))
    unfold phaseLe
    rw [h a (List.mem_cons_self a rest), h b (List.mem_cons_of_mem a hb)]

theorem pairwise_phase_append {u v : List SupAction}
    (hu : List.Pairwise phaseLe u) (hv : List.Pairwise phaseLe v)
    (hb : ∀ a ∈ u, ∀ b ∈ v, phase a ≤ phase b) :
    List.Pairwise phaseLe (u ++ v) :=
  List.pairwise_append.mpr ⟨hu, hv, hb⟩

theorem phase_busSegment (bt : List BusAction) :
    ∀ a ∈ bt.map SupAction.busAct, phase a = 0 := by
  intro a ha
  obtain ⟨x, _, rfl⟩ := List.mem_map.mp ha
  rfl

theorem phase_stopInline (s : Service) :
    ∀ a ∈ stopInline s, phase a = 2 := by
  intro a ha
  cases hasync : s.stopIsAsync <;> cases hr : s.stopRaises <;>
    simp [stopInline, hasync, hr] at ha
  · rcases ha with rfl | rfl <;> rfl
  · rcases ha with rfl | rfl <;> rfl
  · subst ha
    rfl
  · subst ha
    rfl

theorem phase_stopFlat (services : List Service) :
    ∀ a ∈ (servicesToStop services).flatMap stopInline, phase a = 2 := by
  intro a ha
  obtain ⟨s, _, hmem⟩ := List.mem_flatMap.mp ha
  exact phase_stopInline s a hmem

theorem phase_asyncStopSegment (services : List Service) :
    ∀ a ∈ asyncStopSegment services, phase a = 2 := by
  intro a ha
  obtain ⟨s, _, rfl⟩ := List.mem_map.mp ha
  by_cases hr : s.stopRaises <;> simp [hr] <;> rfl

theorem phase_cancelSegment (strays : List StrayTask) :
    ∀ a ∈ cancelSegment strays, 4 ≤ phase a ∧ phase a ≤ 6 := by
  intro a ha
  rw [cancelSegment] at ha
  by_cases he : strays.isEmpty
  · rw [if_pos he] at ha
    exact absurd ha (List.not_mem_nil a)
  · rw [if_neg he] at ha
    rcases List.mem_append.mp ha with hm | hm
    · rcases List.mem_append.mp hm with hm2 | hm2
      · obtain ⟨x, _, rfl⟩ := List.mem_map.mp hm2
        exact ⟨by rfl, by simp [phase]⟩
      · rcases List.mem_singleton.mp hm2 with rfl
        exact ⟨by simp [phase], by simp [phase]⟩
    · obtain ⟨x, _, rfl⟩ := List.mem_map.mp hm
      exact ⟨by simp [phase], by rfl⟩

theorem pairwise_cancelSegment (strays : List StrayTask) :
    List.Pairwise phaseLe (cancelSegment strays) := by
  rw [cancelSegment]
  by_cases he : strays.isEmpty
  · rw [if_pos he]
    exact List.Pairwise.nil
  · rw [if_neg he]
    refine pairwise_phase_append (u := _ ++ _) ?_ ?_ ?_
    · refine pairwise_phase_append ?_ ?_ ?_
      · exact pairwise_phase_const 4 _ (by
          intro a ha
          obtain ⟨x, _, rfl⟩ := List.mem_map.mp ha
          rfl)
      · exact pairwise_phase_const 5 _ (by
          intro a ha
          rcases List.mem_singleton.mp ha with rfl
          rfl)
      · intro a ha b hb
        obtain ⟨x, _, rfl⟩ := List.mem_map.mp ha
        rcases List.mem_singleton.mp hb with rfl
        simp [phase]
    · exact pairwise_phase_const 6 _ (by
        intro a ha
        obtain ⟨x, _, rfl⟩ := List.mem_map.mp ha
        rfl)
    · intro a ha b hb
      obtain ⟨x, _, rfl⟩ := List.mem_map.mp hb
      rcases List.mem_append.mp ha with hm | hm
      · obtain ⟨y, _, rfl⟩ := List.mem_map.mp hm
        simp [phase]
      · rcases List.mem_singleton.mp hm with rfl
        simp [phase]

theorem phase_stopServicesTrace_le (bus : EventBus) (services : List Service) :
    ∀ a ∈ stopServicesTrace bus services, phase a ≤ 3 := by
  intro a ha
  rw [stopServicesTrace] at ha
  rcases List.mem_append.mp ha with hm | hm
  · rcases List.mem_append.mp hm with hm2 | hm2
    · rcases List.mem_append.mp hm2 with hm3 | hm3
      · rcases List.mem_append.mp hm3 with hm4 | hm4
        · rw [phase_busSegment _ a hm4]
          omega
        · rcases List.mem_singleton.mp hm4 with rfl
          simp [phase]
      · rw [phase_stopFlat services a hm3]
        omega
    · rw [phase_asyncStopSegment services a hm2]
      omega
  · rcases List.mem_singleton.mp hm with rfl
    simp [phase]

theorem pairwise_stopServicesTrace (bus : EventBus) (services : List Service) :
    List.Pairwise phaseLe (stopServicesTrace bus services) := by
  rw [stopServicesTrace]
  refine pairwise_phase_append ?_ ?_ ?_
  · refine pairwise_phase_append ?_ ?_ ?_
    · refine pairwise_phase_append ?_ ?_ ?_
      · refine pairwise_phase_append ?_ ?_ ?_
        · exact pairwise_phase_const 0 _ (phase_busSegment _)
        · exact pairwise_phase_const 1 _ (by
            intro a ha
            rcases List.mem_singleton.mp ha with rfl
            rfl)
        · intro a ha b hb
          rcases List.mem_singleton.mp hb with rfl
          rw [phase_busSegment _ a ha]
          simp [phase]
      · exact pairwise_phase_const 2 _ (phase_stopFlat services)
      · intro a ha b hb
        rw [phase_stopFlat services b hb]
        rcases List.mem_append.mp ha with hm | hm
        · rw [phase_busSegment _ a hm]
          omega
        · rcases List.mem_singleton.mp hm with rfl
          simp [phase]
    · exact pairwise_phase_const 2 _ (phase_asyncStopSegment services)
    · intro a ha b hb
      rw [phase_asyncStopSegment services b hb]
      rcases List.mem_append.mp ha with hm | hm
      · rcases List.mem_append.mp hm with hm2 | hm2
        · rw [phase_busSegment _ a hm2]
          omega
        · rcases List.mem_singleton.mp hm2 with rfl
          simp [phase]
      · rw [phase_stopFlat services a hm]
  · exact pairwise_phase_const 3 _ (by
      intro a ha
      rcases List.mem_singleton.mp ha with rfl
      rfl)
  · intro a ha b hb
    rcases List.mem_singleton.mp hb with rfl
    have h3 : phase a ≤ 3 := by
      rcases List.mem_append.mp ha with hm | hm
      · rcases List.mem_append.mp hm with hm2 | hm2
        · rcases List.mem_append.mp hm2 with hm3 | hm3
          · rw [phase_busSegment _ a hm3]
            omega
          · rcases List.mem_singleton.mp hm3 with rfl
            simp [phase]
        · rw [phase_stopFlat services a hm2]
          omega
      · rw [phase_asyncStopSegment services a hm]
        omega
    simpa [phaseLe, phase] using h3

theorem pairwise_shutdownBody (bus : EventBus) (services : List Service)
    (strays : List StrayTask) (loopRunning : Bool) :
    List.Pairwise phaseLe (shutdownBody bus services strays loopRunning) := by
  rw [shutdownBody]
  refine pairwise_phase_append ?_ ?_ ?_
  · refine pairwise_phase_append (pairwise_stopServicesTrace bus services)
      (pairwise_cancelSegment strays) ?_
    intro a ha b hb
    have h1 := phase_stopServicesTrace_le bus services a ha
    have h2 := (phase_cancelSegment strays b hb).1
    omega
  · cases loopRunning
    · simp
    · simp only [if_pos rfl]
      exact pairwise_phase_const 7 _ (by
        intro a ha
        rcases List.mem_singleton.mp ha with rfl
        rfl)
  · intro a ha b hb
    cases loopRunning
    · simp at hb
    · simp only [if_pos rfl] at hb
      rcases List.mem_singleton.mp hb with rfl
      have h7 : phase a ≤ 6 := by
        rcases List.mem_append.mp ha with hm | hm
        · have := phase_stopServicesTrace_le bus services a hm
          omega
        · exact (phase_cancelSegment strays a hm).2
      have h8 : phase a ≤ 7 := by omega
      exact h8

/-- In a phase-sorted trace, any action class living in a strictly earlier
phase occurs strictly before any action class of a later phase. -/
theorem actsBefore_of_phase (t : List SupAction) (p q : SupAction → Bool)
    (hpar : List.Pairwise phaseLe t)
    (hlt : ∀ a b, p a = true → q b = true → phase a < phase b) :
    actsBefore t p q := by
  intro i j a b hi hj hp hq
  rcases Nat.lt_trichotomy i j with h | h | h
  · exact h
  · exfalso
    subst h
    rw [hi] at hj
    have hab : a = b := by injection hj
    subst hab
    exact absurd (hlt a a hp hq) (lt_irrefl _)
  · exfalso
    obtain ⟨hjl, hjb⟩ := List.getElem?_eq_some.mp hj
    obtain ⟨hil, hia⟩ := List.getElem?_eq_some.mp hi
    have hle : phaseLe t[j] t[i] :=
      List.pairwise_iff_getElem.mp hpar j i hjl hil h
    rw [hjb, hia] at hle
    exact absurd (hlt a b hp hq) (by
      unfold phaseLe at hle
      omega)

/-! Classifiers for the shutdown-sequence steps. -/

/-- A step of the awaited `publish(AppShutdownEvent())`. -/
def isBusStep : SupAction → Bool
  | .busAct _ => true
  | _ => false

/-- The fixed grace-period sleep. -/
def isSleepStep : SupAction → Bool
  | .sleepMs _ => true
  | _ => false

/-- Any step of the stop loop: initiation, completion, or the final await
of the async stop tasks. -/
def isStopStep : SupAction → Bool
  | .stopInitiated _ => true
  | .stopOk _ => true
  | .stopErrLogged _ => true
  | .asyncStopsAwaited => true
  | _ => false

/-- A `task.cancel()` request on a leftover task. -/
def isCancelReqStep : SupAction → Bool
  | .cancelRequested _ => true
  | _ => false

/-- The bounded `asyncio.wait` on the cancelled tasks. -/
def isCancelAwaitStep : SupAction → Bool
  | .cancelAwait _ => true
  | _ => false

/-- The warning for a task that did not honor cancellation. -/
def isWarnStep : SupAction → Bool
  | .abandonWarn _ => true
  | _ => false

/-- The `loop.stop()` request. -/
def isLoopStopStep : SupAction → Bool
  | .loopStopRequested => true
  | _ => false

theorem phase_of_isBusStep (a : SupAction) (h : isBusStep a = true) :
    phase a = 0 := by
  cases a <;> simp [isBusStep] at h <;> rfl

theorem phase_of_isSleepStep (a : SupAction) (h : isSleepStep a = true) :
    phase a = 1 := by
  cases a <;> simp [isSleepStep] at h <;> rfl

theorem phase_of_isStopStep (a : SupAction) (h : isStopStep a = true) :
    2 ≤ phase a ∧ phase a ≤ 3 := by
  cases a <;> simp [isStopStep] at h <;> simp [phase]

theorem phase_of_isCancelReqStep (a : SupAction) (h : isCancelReqStep a = true) :
    phase a = 4 := by
  cases a <;> simp [isCancelReqStep] at h <;> rfl

theorem phase_of_isCancelAwaitStep (a : SupAction)
    (h : isCancelAwaitStep a = true) : phase a = 5 := by
  cases a <;> simp [isCancelAwaitStep] at h <;> rfl

theorem phase_of_isWarnStep (a : SupAction) (h : isWarnStep a = true) :
    phase a = 6 := by
  cases a <;> simp [isWarnStep] at h <;> rfl

theorem phase_of_not_loopStop (a : SupAction) (h : isLoopStopStep a = false) :
    phase a ≤ 6 := by
  cases a
  case loopStopRequested => exact absurd h (by simp [isLoopStopStep])
  all_goals simp [phase]

theorem phase_of_isLoopStopStep (a : SupAction) (h : isLoopStopStep a = true) :
    phase a = 7 := by
  cases a <;> simp [isLoopStopStep] at h <;> rfl

/-! Warnings: which stray tasks get the abandoned-with-warning log. -/

theorem abandonWarns_append (u v : List SupAction) :
    abandonWarns (u ++ v) = abandonWarns u ++ abandonWarns v := by
  simp [abandonWarns]

theorem abandonWarns_of_no_warn (t : List SupAction)
    (h : ∀ a ∈ t, isWarnStep a = false) : abandonWarns t = [] := by
  induction t with
  | nil => rfl
  | cons a rest ih =>
    have ha := h a (List.mem_cons_self a rest)
    have hrest := ih fun x hx => h x (List.mem_cons_of_mem a hx)
    cases a
    case abandonWarn k => exact absurd ha (by simp [isWarnStep])
    all_goals simpa [abandonWarns, List.filterMap_cons] using hrest

theorem no_warn_in_stopServicesTrace (bus : EventBus) (services : List Service) :
    ∀ a ∈ stopServicesTrace bus services, isWarnStep a = false := by
  intro a ha
  by_contra hw
  rw [Bool.not_eq_false] at hw
  have h1 := phase_of_isWarnStep a hw
  have h2 := phase_stopServicesTrace_le bus services a ha
  omega

theorem abandonWarns_warnMap (l : List StrayTask) :
    abandonWarns (l.map (fun t => SupAction.abandonWarn t.id)) = l.map (·.id) := by
  induction l with
  | nil => rfl
  | cons t rest ih =>
    simpa [abandonWarns, List.filterMap_cons] using ih

theorem abandonWarns_cancelSegment (strays : List StrayTask) :
    abandonWarns (cancelSegment strays) =
      (strays.filter (fun k => !k.honorsCancel)).map (·.id) := by
  rw [cancelSegment]
  by_cases he : strays.isEmpty
  · rw [if_pos he, List.isEmpty_iff.mp he]
    rfl
  · rw [if_neg he, abandonWarns_append, abandonWarns_append,
      abandonWarns_warnMap]
    have h1 : abandonWarns (strays.map fun t => SupAction.cancelRequested t.id) = [] := by
      refine abandonWarns_of_no_warn _ ?_
      intro a ha
      obtain ⟨x, _, rfl⟩ := List.mem_map.mp ha
      rfl
    have h2 : abandonWarns [SupAction.cancelAwait 2000] = [] := rfl
    rw [h1, h2]
    rfl

theorem abandonWarns_shutdownBody (bus : EventBus) (services : List Service)
    (strays : List StrayTask) (loopRunning : Bool) :
    abandonWarns (shutdownBody bus services strays loopRunning) =
      (strays.filter (fun k => !k.honorsCancel)).map (·.id) := by
  rw [shutdownBody, abandonWarns_append, abandonWarns_append,
    abandonWarns_of_no_warn _ (no_warn_in_stopServicesTrace bus services),
    abandonWarns_cancelSegment]
  have h3 : abandonWarns (if loopRunning then [SupAction.loopStopRequested] else []) = [] := by
    cases loopRunning <;> rfl
  rw [h3]
  simp

/-- C7: the shutdown sequence performs its steps strictly in order — the
shutdown-notice publish is fully drained before the fixed 100 ms grace
sleep, which precedes every stop invocation; all stop invocations are
attempted and awaited before any leftover task is cancelled; every
cancellation request precedes the bounded (2000 ms) `asyncio.wait`, which
precedes every abandoned-task warning; the tasks warned about and
abandoned are exactly those that do not honor cancellation; and the event
loop is told to stop only after every other step (it is the final action
whenever the loop is running). -/
theorem shutdown_steps_strictly_ordered (bus : EventBus)
    (services : List Service) (strays : List StrayTask) (loopRunning : Bool) :
    actsBefore (shutdownBody bus services strays loopRunning) isBusStep isSleepStep ∧
    actsBefore (shutdownBody bus services strays loopRunning) isSleepStep isStopStep ∧
    actsBefore (shutdownBody bus services strays loopRunning) isStopStep isCancelReqStep ∧
    actsBefore (shutdownBody bus services strays loopRunning) isCancelReqStep isCancelAwaitStep ∧
    actsBefore (shutdownBody bus services strays loopRunning) isCancelAwaitStep isWarnStep ∧
    actsBefore (shutdownBody bus services strays loopRunning)
      (fun a => !(isLoopStopStep a)) isLoopStopStep ∧
    abandonWarns (shutdownBody bus services strays loopRunning) =
      (strays.filter (fun k => !k.honorsCancel)).map (·.id) ∧
    SupAction.sleepMs 100 ∈ shutdownBody bus services strays loopRunning ∧
    (strays ≠ [] →
      SupAction.cancelAwait 2000 ∈ shutdownBody bus services strays loopRunning) ∧
    (loopRunning = true →
      (shutdownBody bus services strays loopRunning).getLast? =
        some .loopStopRequested) := by
  have hpar := pairwise_shutdownBody bus services strays loopRunning
  refine ⟨?_, ?_, ?_, ?_, ?_, ?_,
    abandonWarns_shutdownBody bus services strays loopRunning, ?_, ?_, ?_⟩
  · refine actsBefore_of_phase _ _ _ hpar ?_
    intro a b hp hq
    rw [phase_of_isBusStep a hp, phase_of_isSleepStep b hq]
    omega
  · refine actsBefore_of_phase _ _ _ hpar ?_
    intro a b hp hq
    have := (phase_of_isStopStep b hq).1
    rw [phase_of_isSleepStep a hp]
    omega
  · refine actsBefore_of_phase _ _ _ hpar ?_
    intro a b hp hq
    have := (phase_of_isStopStep a hp).2
    rw [phase_of_isCancelReqStep b hq]
    omega
  · refine actsBefore_of_phase _ _ _ hpar ?_
    intro a b hp hq
    rw [phase_of_isCancelReqStep a hp, phase_of_isCancelAwaitStep b hq]
    omega
  · refine actsBefore_of_phase _ _ _ hpar ?_
    intro a b hp hq
    rw [phase_of_isCancelAwaitStep a hp, phase_of_isWarnStep b hq]
    omega
  · refine actsBefore_of_phase _ _ _ hpar ?_
    intro a b hp hq
    have ha : isLoopStopStep a = false := by simpa using hp
    have h1 := phase_of_not_loopStop a ha
    rw [phase_of_isLoopStopStep b hq]
    omega
  · refine List.mem_append_left _ (List.mem_append_left _ ?_)
    rw [stopServicesTrace]
    refine List.mem_append_left _ (List.mem_append_left _ (List.mem_append_left _ ?_))
    exact List.mem_append_right _ (List.mem_singleton.mpr rfl)
  · intro hne
    have he : strays.isEmpty = false := by simpa using hne
    refine List.mem_append_left _ (List.mem_append_right _ ?_)
    rw [cancelSegment, if_neg (by simp [he])]
    exact List.mem_append_left _ (List.mem_append_right _ (List.mem_singleton.mpr rfl))
  · intro hlr
    subst hlr
    rw [shutdownBody]
    simp only [if_pos]
    exact List.getLast?_concat _

/-! ## C6: the shutdown flag is write-once and the sequence runs once -/

theorem stopInits_nil_of_phase_ge (t : List SupAction)
    (h : ∀ a ∈ t, 4 ≤ phase a) : stopInits t = [] := by
  induction t with
  | nil => rfl
  | cons a rest ih =>
    have ha := h a (List.mem_cons_self a rest)
    have hrest := ih fun x hx => h x (List.mem_cons_of_mem a hx)
    cases a
    case stopInitiated k => simp [phase] at ha
    all_goals simpa [stopInits, List.filterMap_cons] using hrest

theorem stopInits_cancelSegment (strays : List StrayTask) :
    stopInits (cancelSegment strays) = [] :=
  stopInits_nil_of_phase_ge _ (fun a ha => (phase_cancelSegment strays a ha).1)

theorem stopInits_shutdownBody (bus : EventBus) (services : List Service)
    (strays : List StrayTask) (loopRunning : Bool) :
    stopInits (shutdownBody bus services strays loopRunning) =
      ((services.filter (·.hasStop)).map (·.id)).reverse := by
  rw [shutdownBody, stopInits_append, stopInits_append,
    stopInits_cancelSegment, stopInits_stopServicesTrace, servicesToStop,
    List.filter_reverse, List.map_reverse]
  have hloop : stopInits (if loopRunning then [SupAction.loopStopRequested] else []) = [] := by
    cases loopRunning <;> rfl
  rw [hloop]
  simp

theorem count_stopInitiated_eq (t : List SupAction) (k : Nat) :
    t.count (SupAction.stopInitiated k) = (stopInits t).count k := by
  induction t with
  | nil => rfl
  | cons a rest ih =>
    cases a <;>
      simp [stopInits, List.filterMap_cons, List.count_cons, ih]

theorem handleTrigger_preserves (bus : EventBus) (services : List Service)
    (strays : List StrayTask) (loopRunning : Bool) (st : AppState)
    (tr : Trigger) (h : st.shuttingDown = true) :
    (handleTrigger bus services strays loopRunning st tr).shuttingDown = true ∧
    stopInits (handleTrigger bus services strays loopRunning st tr).trace =
      stopInits st.trace := by
  have hcall : (shutdownCall bus services strays loopRunning st).shuttingDown = true ∧
      stopInits (shutdownCall bus services strays loopRunning st).trace =
        stopInits st.trace := by
    rw [shutdownCall, if_pos h]
    refine ⟨h, ?_⟩
    rw [stopInits_append]
    simp [stopInits]
  cases tr
  case osSignal =>
    simp only [handleTrigger]
    rw [if_pos h]
    exact ⟨h, rfl⟩
  case uiClose =>
    simp only [handleTrigger]
    rw [if_pos h]
    exact ⟨h, rfl⟩
  case programmatic =>
    simp only [handleTrigger]
    exact hcall

theorem runFold_preserves (bus : EventBus) (services : List Service)
    (strays : List StrayTask) (loopRunning : Bool) (trs : List Trigger)
    (st : AppState) (h : st.shuttingDown = true) :
    (trs.foldl (handleTrigger bus services strays loopRunning) st).shuttingDown = true ∧
    stopInits (trs.foldl (handleTrigger bus services strays loopRunning) st).trace =
      stopInits st.trace := by
  induction trs generalizing st with
  | nil => exact ⟨h, rfl⟩
  | cons tr rest ih =>
    obtain ⟨h1, h2⟩ := handleTrigger_preserves bus services strays loopRunning st tr h
    obtain ⟨h3, h4⟩ := ih _ h1
    refine ⟨by rw [List.foldl_cons]; exact h3, ?_⟩
    rw [List.foldl_cons, h4, h2]

theorem handleTrigger_initial (bus : EventBus) (services : List Service)
    (strays : List StrayTask) (loopRunning : Bool) (tr : Trigger) :
    handleTrigger bus services strays loopRunning AppState.initial tr =
      ⟨true, shutdownBody bus services strays loopRunning⟩ := by
  cases tr <;> simp [handleTrigger, AppState.initial, shutdownCall]

/-- C6: `_shutting_down` is write-once — a state already shutting down
stays so under every further trigger — and for any nonempty sequence of
shutdown triggers (signals, UI close, programmatic calls, in any mix) the
full shutdown sequence runs exactly once: the stop-initiation log equals
the single reverse-registration-order pass, and, with distinct service
ids, every stopping service's stop hook is initiated exactly once. -/
theorem shutdown_flag_write_once_single_sequence (bus : EventBus)
    (services : List Service) (strays : List StrayTask) (loopRunning : Bool)
    (tr : Trigger) (trs : List Trigger)
    (hnodup : (services.map (·.id)).Nodup) :
    (∀ (st : AppState) (k : Trigger), st.shuttingDown = true →
       (handleTrigger bus services strays loopRunning st k).shuttingDown = true) ∧
    (runTriggers bus services strays loopRunning (tr :: trs)).shuttingDown = true ∧
    stopInits (runTriggers bus services strays loopRunning (tr :: trs)).trace =
      ((services.filter (·.hasStop)).map (·.id)).reverse ∧
    (∀ s ∈ services, s.hasStop = true →
       ((runTriggers bus services strays loopRunning (tr :: trs)).trace).count
         (SupAction.stopInitiated s.id) = 1) := by
  have hfirst := handleTrigger_initial bus services strays loopRunning tr
  have hrun : runTriggers bus services strays loopRunning (tr :: trs) =
      trs.foldl (handleTrigger bus services strays loopRunning)
        ⟨true, shutdownBody bus services strays loopRunning⟩ := by
    rw [runTriggers, List.foldl_cons, hfirst]
  obtain ⟨hflag, hinits⟩ := runFold_preserves bus services strays loopRunning trs
    ⟨true, shutdownBody bus services strays loopRunning⟩ rfl
  have hinits2 : stopInits (runTriggers bus services strays loopRunning (tr :: trs)).trace =
      ((services.filter (·.hasStop)).map (·.id)).reverse := by
    rw [hrun, hinits]
    exact stopInits_shutdownBody bus services strays loopRunning
  refine ⟨fun st k h => (handleTrigger_preserves bus services strays loopRunning st k h).1,
    by rw [hrun]; exact hflag, hinits2, ?_⟩
  intro s hs hstop
  rw [count_stopInitiated_eq, hinits2, List.count_reverse]
  have hsub : ((services.filter (·.hasStop)).map (·.id)).Sublist (services.map (·.id)) :=
    List.Sublist.map _ (List.filter_sublist services)
  refine List.count_eq_one_of_mem (hnodup.sublist hsub) ?_
  exact List.mem_map.mpr ⟨s, List.mem_filter.mpr ⟨hs, by simp [hstop]⟩, rfl⟩

/-! ## Concrete fixtures used to instantiate the theorems -/

/-- First sync handler of the concrete bus scenario. -/
def wSync1 : Handler := ⟨1, false⟩

/-- Second sync handler; this one raises. -/
def wSync2 : Handler := ⟨2, true⟩

/-- An async handler that completes normally. -/
def wAsync1 : Handler := ⟨3, false⟩

/-- A bus with `wSync1, wSync2` subscribed (in that order) and `wAsync1`
async-subscribed, all on event type 5. -/
def wBus : EventBus :=
  subscribeAsync (subscribeAll EventBus.empty 5 [wSync1, wSync2]) 5 wAsync1

/-- A service with a synchronous, well-behaved stop hook. -/
def wService1 : Service := ⟨1, true, false, true, false, false⟩

/-- A service whose start raises and whose stop is asynchronous. -/
def wService2 : Service := ⟨2, true, true, true, true, false⟩

/-- A service whose synchronous stop hook raises. -/
def wService3 : Service := ⟨3, true, false, true, false, true⟩

/-- A registration-ordered service list. -/
def wServices : List Service := [wService1, wService2, wService3]

/-- Two leftover tasks at shutdown: one honours cancellation, one hangs. -/
def wStrays : List StrayTask := [⟨10, true⟩, ⟨11, false⟩]

/-! ## Witnesses -/

/-- Witness for the barrier theorem on the concrete bus. -/
theorem publish_is_fanout_fanin_barrier_witness :
    (BusAction.syncOk 1 ∈ publishTrace wBus 5 ∨
      BusAction.syncErrLogged 1 ∈ publishTrace wBus 5) ∧
    BusAction.asyncDone 3 true ∈ publishTrace wBus 5 ∧
    (1 : Nat) < 6 :=
  ⟨(publish_is_fanout_fanin_barrier wBus 5).1 wSync1 (by decide),
   (publish_is_fanout_fanin_barrier wBus 5).2.1 wAsync1 (by decide),
   (publish_is_fanout_fanin_barrier wBus 5).2.2.1 1 6
     (BusAction.syncOk 1) BusAction.ret (by decide) (by decide) (by decide) (by decide)⟩

/-- Witness for single-failure isolation: on `wBus`, `wSync2` raises and
the other two handlers are still invoked while `publish` returns `.ok`. -/
theorem publish_isolates_single_failing_handler_witness :
    BusAction.syncStart 1 ∈ publishTrace wBus 5 ∧
    BusAction.asyncStart 3 ∈ publishTrace wBus 5 ∧
    publish wBus 5 = .ok (publishTrace wBus 5) :=
  ⟨(publish_isolates_single_failing_handler wBus 5 wSync2 (by decide) (by decide)
      (by decide)).1 wSync1 (by decide) (by decide),
   (publish_isolates_single_failing_handler wBus 5 wSync2 (by decide) (by decide)
      (by decide)).2.1 wAsync1 (by decide) (by decide),
   (publish_isolates_single_failing_handler wBus 5 wSync2 (by decide) (by decide)
      (by decide)).2.2⟩

/-- Witness for the amended C3 theorem on the async-raiser bus. -/
theorem async_error_captured_not_propagated_not_logged_witness :
    publish asyncRaiserBus 0 = .ok (publishTrace asyncRaiserBus 0) ∧
    Except.error 7 ∈ gatherResults (getSubs asyncRaiserBus.asyncSubscribers 0) ∧
    loggedErrors (publishTrace asyncRaiserBus 0) =
      ((getSubs asyncRaiserBus.subscribers 0).filter (·.raises)).map (·.id) :=
  ⟨(async_error_captured_not_propagated_not_logged asyncRaiserBus 0
      soleAsyncRaiser (by decide) (by decide)).1,
   (async_error_captured_not_propagated_not_logged asyncRaiserBus 0
      soleAsyncRaiser (by decide) (by decide)).2.1,
   (async_error_captured_not_propagated_not_logged asyncRaiserBus 0
      soleAsyncRaiser (by decide) (by decide)).2.2.2⟩

/-- Witness: with `wService1, wService2, wService3` registered in that
order (ids 1, 2, 3, all with stop hooks), the stop-initiation log reads
3, 2, 1. -/
theorem stop_initiated_in_reverse_registration_order_witness :
    stopInits (stopServicesTrace EventBus.empty wServices) = [3, 2, 1] ∧
    SupAction.stopInitiated 1 ∈ stopServicesTrace EventBus.empty wServices :=
  ⟨((stop_initiated_in_reverse_registration_order EventBus.empty wServices).1).trans
     (by decide),
   (stop_initiated_in_reverse_registration_order EventBus.empty wServices).2
     wService1 (by decide) (by decide)⟩

/-- Witness: three overlapping shutdown triggers produce exactly one stop
initiation of service 1, and a state already shutting down stays so. -/
theorem shutdown_flag_write_once_single_sequence_witness :
    (handleTrigger EventBus.empty wServices wStrays true
        ⟨true, []⟩ Trigger.osSignal).shuttingDown = true ∧
    (runTriggers EventBus.empty wServices wStrays true
        [Trigger.osSignal, Trigger.uiClose, Trigger.programmatic]).shuttingDown = true ∧
    ((runTriggers EventBus.empty wServices wStrays true
        [Trigger.osSignal, Trigger.uiClose, Trigger.programmatic]).trace).count
      (SupAction.stopInitiated 1) = 1 :=
  ⟨(shutdown_flag_write_once_single_sequence EventBus.empty wServices wStrays true
      Trigger.osSignal [Trigger.uiClose, Trigger.programmatic] (by decide)).1
     ⟨true, []⟩ Trigger.osSignal rfl,
   (shutdown_flag_write_once_single_sequence EventBus.empty wServices wStrays true
      Trigger.osSignal [Trigger.uiClose, Trigger.programmatic] (by decide)).2.1,
   (shutdown_flag_write_once_single_sequence EventBus.empty wServices wStrays true
      Trigger.osSignal [Trigger.uiClose, Trigger.programmatic] (by decide)).2.2.2
     wService1 (by decide) (by decide)⟩

/-- Witness for the ordered-shutdown theorem on a concrete scenario: the
bus step precedes the grace sleep, the awaited stop gather precedes the
first cancellation, the hung task 11 is the one warned about, and the
loop-stop request is last. -/
theorem shutdown_steps_strictly_ordered_witness :
    (0 : Nat) < 1 ∧ (8 : Nat) < 9 ∧
    abandonWarns (shutdownBody EventBus.empty wServices wStrays true) = [11] ∧
    SupAction.sleepMs 100 ∈ shutdownBody EventBus.empty wServices wStrays true ∧
    SupAction.cancelAwait 2000 ∈ shutdownBody EventBus.empty wServices wStrays true ∧
    (shutdownBody EventBus.empty wServices wStrays true).getLast? =
      some .loopStopRequested :=
  ⟨(shutdown_steps_strictly_ordered EventBus.empty wServices wStrays true).1 0 1
     (SupAction.busAct BusAction.ret) (SupAction.sleepMs 100)
     (by decide) (by decide) (by decide) (by decide),
   (shutdown_steps_strictly_ordered EventBus.empty wServices wStrays true).2.2.1 8 9
     SupAction.asyncStopsAwaited (SupAction.cancelRequested 10)
     (by decide) (by decide) (by decide) (by decide),
   ((shutdown_steps_strictly_ordered EventBus.empty wServices wStrays true).2.2.2.2.2.2.1).trans
     (by decide),
   (shutdown_steps_strictly_ordered EventBus.empty wServices wStrays true).2.2.2.2.2.2.2.1,
   (shutdown_steps_strictly_ordered EventBus.empty wServices wStrays true).2.2.2.2.2.2.2.2.1
     (by decide),
   (shutdown_steps_strictly_ordered EventBus.empty wServices wStrays true).2.2.2.2.2.2.2.2.2
     rfl⟩

/-- Witness: service 2's start raises, services 1 and 3 still start. -/
theorem start_failure_does_not_abort_others_witness :
    SupAction.startErrLogged 2 ∈ startServicesTrace [wService1] [wService2, wService3] ∧
    SupAction.startAttempt 1 ∈ startServicesTrace [wService1] [wService2, wService3] ∧
    SupAction.startOk 1 ∈ startServicesTrace [wService1] [wService2, wService3] :=
  ⟨(start_failure_does_not_abort_others [wService1] [wService2, wService3] wService2
      (by decide) (by decide) (by decide)).1,
   ((start_failure_does_not_abort_others [wService1] [wService2, wService3] wService2
      (by decide) (by decide) (by decide)).2 wService1 (by decide) (by decide) (by decide)).1,
   ((start_failure_does_not_abort_others [wService1] [wService2, wService3] wService2
      (by decide) (by decide) (by decide)).2 wService1 (by decide) (by decide) (by decide)).2
     (by decide)⟩

/-- Witness for the sequential-sync-then-async theorem on the concrete
bus: the trace is balanced and `wSync1`'s completion (index 1) precedes
the async start (index 4). -/
theorem sync_phase_sequential_and_before_async_witness :
    syncBalanced (publishTrace wBus 5) 0 = true ∧
    (BusAction.syncOk 1 ∈ publishTrace wBus 5 ∨
      BusAction.syncErrLogged 1 ∈ publishTrace wBus 5) ∧
    (1 : Nat) < 4 :=
  ⟨(sync_phase_sequential_and_before_async wBus 5).1,
   (sync_phase_sequential_and_before_async wBus 5).2.1 wSync1 (by decide),
   (sync_phase_sequential_and_before_async wBus 5).2.2 1 4
     (BusAction.syncOk 1) (BusAction.asyncStart 3)
     (by decide) (by decide) (by decide) (by decide)⟩

/-- A handler subscribed twice to event type 9. -/
def dupHandler : Handler := ⟨4, false⟩

/-- A bus where `dupHandler` appears twice in the sync list of type 9. -/
def dupBus : EventBus := subscribeAll EventBus.empty 9 [dupHandler, dupHandler]

/-- Witness: after one `unsubscribe`, publish invokes `dupHandler` once;
after a second, not at all. -/
theorem unsubscribe_removes_single_occurrence_witness :
    invocations 4 (publishTrace (unsubscribe dupBus 9 dupHandler) 9) = 1 ∧
    invocations 4
      (publishTrace (unsubscribe (unsubscribe dupBus 9 dupHandler) 9 dupHandler) 9) = 0 :=
  ⟨(unsubscribe_removes_single_occurrence dupBus 9 dupHandler (by decide) (by decide)
      (Or.inl (by decide))).2.1,
   (unsubscribe_removes_single_occurrence dupBus 9 dupHandler (by decide) (by decide)
      (Or.inl (by decide))).2.2⟩

end PennyV2
